import Mathlib

/-!
Shallow embedding of the multi-stream generation coordinator of the
RWKV-Parallel-Novel front end (src/src/pages/HomePage.tsx): the SSE chunk
re-assembly and line parser of `AIService._executeGeneration`, the stream
demultiplexer and its end-of-stream finalization, the throttled update
scheduler of `handleGenerate`, the `flushUpdates` / `handleStopGenerate`
handlers of the ChatPage, and the continuation callback of
`handleContinueGenerate`.  JS strings are modelled as lists of characters.
-/

namespace RWKV

/-- Strings of the embedding: a JS string as its list of characters. -/
abbrev Str := List Char

/-- Test whether `s` begins with `p` (JS `line.startsWith('data: ')`). -/
def strStarts : Str → Str → Bool
  | _, [] => true
  | [], _ :: _ => false
  | c :: cs, p :: ps => c = p && strStarts cs ps

/-- Whitespace test covering the characters that occur around SSE payloads
(models the character class removed by JS `trim`). -/
def isWsChar (c : Char) : Bool := c = ' ' || c = '\t' || c = '\n' || c = '\r'

/-- JS `String.prototype.trim`: drop whitespace from both ends. -/
def trimChars (s : Str) : Str :=
  ((s.dropWhile isWsChar).reverse.dropWhile isWsChar).reverse

/-- Prepend a character to the first segment of a segment list. -/
def consHead (c : Char) : List Str → List Str
  | [] => [[c]]
  | l :: ls => (c :: l) :: ls

/-- JS `text.split('\n')`: split a string at every newline character.  The
result is always a non-empty list; a trailing newline yields a final empty
segment, exactly as in JS. -/
def splitNl : Str → List Str
  | [] => [[]]
  | c :: cs => if c = '\n' then [] :: splitNl cs else consHead c (splitNl cs)

/-- One iteration of the read loop of `AIService._executeGeneration`
(HomePage.tsx lines 1344-1353): append the decoded chunk to the pending
carry-over, split on newlines, pop the last (possibly incomplete) segment
back into the carry-over, and emit the complete lines in order. -/
def sseStep (st : List Str × Str) (chunk : Str) : List Str × Str :=
  let joined := st.2 ++ chunk
  let lines := splitNl joined
  (st.1 ++ lines.dropLast, lines.getLastD [])

/-- Feed a whole sequence of chunks through the read loop, starting from an
empty carry-over; returns the emitted complete lines and the final carry. -/
def sseRun (chunks : List Str) : List Str × Str :=
  chunks.foldl sseStep ([], [])

/-- One choice of a decoded SSE event (`StreamChunk.choices[k]` in the
source); `delta` models `choice.delta?.content`, with an absent `delta`
object or absent `content` field collapsed to `none`. -/
structure SSEChoice where
  index : Int
  delta : Option Str
deriving DecidableEq

/-- Decoded JSON payload of one SSE `data: ` line (source interface
`StreamChunk`). -/
structure StreamChunk where
  object : Str
  choices : List SSEChoice
deriving DecidableEq

/-- One recorded invocation of the `onProgress` callback. -/
structure ProgressCall where
  index : Int
  content : Str
  isComplete : Bool
  tokenRate : Int
  totalTokens : Nat
deriving DecidableEq

/-- Mutable state of `AIService._executeGeneration` during the read loop,
with the emitted `onProgress` invocations recorded in `progressLog`. -/
structure ExecState where
  contentBuffers : List Str
  totalTokenCount : Nat
  progressLog : List ProgressCall
deriving DecidableEq

/-- Token-rate computation of the source (lines 1375-1379 and 1401-1403):
`elapsedSeconds > 0 ? Math.round(totalTokenCount / elapsedSeconds) : 0`.
JS `Math.round x` is the floor of `x + 1/2`, which is Mathlib `round`. -/
def tokenRateOf (total : Nat) (elapsedSeconds : ℚ) : Int :=
  if 0 < elapsedSeconds then round ((total : ℚ) / elapsedSeconds) else 0

/-- Initial demultiplexer state: `count` empty buffers (line 1295). -/
def initState (count : Nat) : ExecState :=
  { contentBuffers := List.replicate count []
    totalTokenCount := 0
    progressLog := [] }

/-- Processing of one `choice` (HomePage.tsx lines 1364-1391).  The guard
`delta && index >= 0 && index < count` uses JS string truthiness, so an
empty delta is skipped.  `clock k` is the elapsed time in seconds observed
by the `k`-th applied delta, an oracle for `Date.now() - startTime`. -/
def applyChoice (count : Nat) (clock : Nat → ℚ) (st : ExecState) (choice : SSEChoice) : ExecState :=
  let delta := choice.delta.getD []
  if delta ≠ [] ∧ 0 ≤ choice.index ∧ choice.index < (count : Int) then
    let i := choice.index.toNat
    let newBuffers := st.contentBuffers.set i (st.contentBuffers.getD i [] ++ delta)
    let newTotal := st.totalTokenCount + delta.length
    let rate := tokenRateOf newTotal (clock st.progressLog.length)
    { contentBuffers := newBuffers
      totalTokenCount := newTotal
      progressLog := st.progressLog ++
        [{ index := choice.index
           content := newBuffers.getD i []
           isComplete := false
           tokenRate := rate
           totalTokens := newTotal }] }
  else st

/-- Processing of one decoded event: the loop over `json.choices`, guarded
by `json.choices && json.choices.length > 0` (lines 1363-1393). -/
def processEvent (count : Nat) (clock : Nat → ℚ) (st : ExecState) (json : StreamChunk) : ExecState :=
  if json.choices.isEmpty then st
  else json.choices.foldl (applyChoice count clock) st

/-- Processing of one complete SSE line (HomePage.tsx lines 1355-1396):
lines not starting with `data: ` are skipped, the payload is the trimmed
remainder after the 6-character marker, the literal payload `[DONE]` is
ignored, and a payload on which `decode` (the external `JSON.parse`) fails
is skipped -- the source catch block merely logs and continues. -/
def processLine (decode : Str → Option StreamChunk) (count : Nat) (clock : Nat → ℚ)
    (st : ExecState) (line : Str) : ExecState :=
  if strStarts line ("data: ".data) = false then st
  else
    let payload := trimChars (line.drop 6)
    if payload = "[DONE]".data then st
    else
      match decode payload with
      | some json => processEvent count clock st json
      | none => st

/-- Fold of `processLine` over a sequence of complete lines. -/
def processLines (decode : Str → Option StreamChunk) (count : Nat) (clock : Nat → ℚ)
    (st : ExecState) (lines : List Str) : ExecState :=
  lines.foldl (processLine decode count clock) st

/-- Fold of `processEvent` over a sequence of decoded events. -/
def processEvents (count : Nat) (clock : Nat → ℚ) (st : ExecState)
    (events : List StreamChunk) : ExecState :=
  events.foldl (processEvent count clock) st

/-- One iteration of the final loop of `_executeGeneration` (lines
1405-1413): push `contentBuffers[i] || ''` onto `results` and, when it is
non-empty, issue the final `onProgress` call with `isComplete = true`. -/
def finalStep (finalRate : Int) (acc : ExecState × List Str) (i : Nat) : ExecState × List Str :=
  let content := acc.1.contentBuffers.getD i []
  (if content ≠ [] then
     { acc.1 with progressLog := acc.1.progressLog ++
        [{ index := (i : Int), content := content, isComplete := true
           tokenRate := finalRate, totalTokens := acc.1.totalTokenCount }] }
   else acc.1,
   acc.2 ++ [content])

/-- End-of-stream finalization (lines 1400-1413): compute the final rate
from the final elapsed time, then run the final loop over all indices. -/
def finalizeRun (count : Nat) (elapsedFinal : ℚ) (st : ExecState) : ExecState × List Str :=
  let finalRate := tokenRateOf st.totalTokenCount elapsedFinal
  (List.range count).foldl (finalStep finalRate) (st, [])

/-- All `deltaText` values carried by a list of choices for index `i`, in
arrival order (including empty ones, whose concatenation is neutral). -/
def choiceDeltasFor (i : Nat) (choices : List SSEChoice) : List Str :=
  choices.filterMap (fun c =>
    if c.index = (i : Int) then some (c.delta.getD []) else none)

/-- All `deltaText` values seen for index `i` over a list of events. -/
def deltasFor (i : Nat) (events : List StreamChunk) : List Str :=
  choiceDeltasFor i ((events.map StreamChunk.choices).flatten)

/-- The deltas of a choice list the source actually applies: non-empty
text with an index inside the range. -/
def appliedChoiceDeltas (count : Nat) (choices : List SSEChoice) : List Str :=
  choices.filterMap (fun c =>
    let delta := c.delta.getD []
    if delta ≠ [] ∧ 0 ≤ c.index ∧ c.index < (count : Int) then some delta else none)

/-- The deltas the source actually applies over a list of events. -/
def appliedDeltas (count : Nat) (events : List StreamChunk) : List Str :=
  appliedChoiceDeltas count ((events.map StreamChunk.choices).flatten)

/-- Expected `(totalTokens, tokenRate)` pairs of the stream-phase progress
reports: running sums of the applied delta lengths, each paired with the
rate the source computes at that call from the clock oracle. -/
def withRates (clock : Nat → ℚ) : Nat → Nat → List Nat → List (Nat × Int)
  | _, _, [] => []
  | k, acc, x :: xs => (acc + x, tokenRateOf (acc + x) (clock k)) :: withRates clock (k + 1) (acc + x) xs

/-- Expected final callbacks: one per index with a non-empty buffer. -/
def finalCallsList (count : Nat) (finalRate : Int) (total : Nat) (buffers : List Str) : List ProgressCall :=
  (List.range count).filterMap (fun i =>
    let content := buffers.getD i []
    if content ≠ [] then
      some { index := (i : Int), content := content, isComplete := true
             tokenRate := finalRate, totalTokens := total }
    else none)

/-- One demultiplexed update as seen by the scheduler of `handleGenerate`:
arrival time in milliseconds, stream index, accumulated content, and the
`isComplete` flag of the callback. -/
structure SchedEvent where
  t : Nat
  index : Nat
  content : Str
  isComplete : Bool
deriving DecidableEq

/-- Scheduler state: the pending throttle timer (absolute fire time), the
`updateBuffer` map, and the log of flushes, each recording its time and
the buffer snapshot it pushed. -/
structure SchedState where
  timer : Option Nat
  buffer : List (Nat × Str)
  flushes : List (Nat × List (Nat × Str))
deriving DecidableEq

/-- JS `Map.set`: replace in place if the key exists, else append. -/
def mapSet : List (Nat × Str) → Nat → Str → List (Nat × Str)
  | [], k, v => [(k, v)]
  | (k', v') :: rest, k, v =>
    if k' = k then (k, v) :: rest else (k', v') :: mapSet rest k v

/-- JS `Map.get` as an option. -/
def mapGet : List (Nat × Str) → Nat → Option Str
  | [], _ => none
  | (k', v') :: rest, k => if k' = k then some v' else mapGet rest k

/-- Record a flush at time `t`: `flushUpdates` pushes the whole pending
buffer, and skips entirely when the buffer is empty (lines 383-436). -/
def recordFlush (t : Nat) (st : SchedState) : SchedState :=
  if st.buffer = [] then st
  else { st with flushes := st.flushes ++ [(t, st.buffer)] }

/-- Fire the pending throttle timer if its fire time has been reached by
`now`: the timeout callback runs `flushUpdates` and the timer is spent. -/
def fireDue (st : SchedState) (now : Nat) : SchedState :=
  match st.timer with
  | some ft => if ft ≤ now then recordFlush ft { st with timer := none } else st
  | none => st

/-- The scheduler decision of the `onProgress` callback in `handleGenerate`
(lines 442-485): first any timer due before the arrival fires, then the
buffer entry is set; `content.length > 100 || isComplete` forces clearing
the timer and a synchronous flush, otherwise the shared throttle timer is
restarted to fire 300 ms after this update. -/
def schedUpdate (st : SchedState) (ev : SchedEvent) : SchedState :=
  let st₁ := fireDue st ev.t
  let st₂ := { st₁ with buffer := mapSet st₁.buffer ev.index ev.content }
  if 100 < ev.content.length ∨ ev.isComplete = true then
    recordFlush ev.t { st₂ with timer := none }
  else
    { st₂ with timer := some (ev.t + 300) }

/-- After the last update, let the pending timer (if any) fire. -/
def drainTimer (st : SchedState) : SchedState :=
  match st.timer with
  | some ft => recordFlush ft { st with timer := none }
  | none => st

/-- Run the scheduler over a time-ordered sequence of updates and then let
the remaining timer fire. -/
def runSched (events : List SchedEvent) : SchedState :=
  drainTimer (events.foldl schedUpdate { timer := none, buffer := [], flushes := [] })

/-- Scenario D of the specification: two sub-threshold updates for index 0
arriving 50 ms apart. -/
def scenarioD : List SchedEvent :=
  [ { t := 0, index := 0, content := List.replicate 50 'a', isComplete := false }
  , { t := 50, index := 0, content := List.replicate 60 'b', isComplete := false } ]

/-- One entry of the ChatPage `results` array (interface
`GeneratedResult`). -/
structure GeneratedResult where
  id : Str
  content : Str
  isLoading : Bool
deriving DecidableEq

/-- ChatPage state relevant to flushing: the pending `updateBuffer`, the
`results` React state, the persisted `localStorage` snapshot, and the log
of `UPDATE_CONTENT` broadcast messages. -/
structure PageState where
  updateBuffer : List (Nat × Str)
  results : List GeneratedResult
  persisted : Option (List GeneratedResult)
  messages : List (Nat × Str)
deriving DecidableEq

/-- The `prev.map((result, i) => ...)` merge inside `flushUpdates`: an
index with a pending update gets its content and `isLoading := false`,
others are untouched. -/
def applyUpdatesFrom (updates : List (Nat × Str)) : Nat → List GeneratedResult → List GeneratedResult
  | _, [] => []
  | i, r :: rs =>
    (match mapGet updates i with
     | some c => { r with content := c, isLoading := false }
     | none => r) :: applyUpdatesFrom updates (i + 1) rs

/-- The `flushUpdates` closure of `handleGenerate` (lines 383-436): when
the pending buffer is non-empty, broadcast every pending pair, merge them
into `results`, and persist the merged snapshot; the buffer is never
cleared.  An empty buffer skips everything. -/
def flushUpdates (s : PageState) : PageState :=
  if s.updateBuffer = [] then s
  else
    let newResults := applyUpdatesFrom s.updateBuffer 0 s.results
    { s with messages := s.messages ++ s.updateBuffer
             results := newResults
             persisted := some newResults }

/-- The merge inside `handleStopGenerate` (lines 738-753): indices with a
pending update take its content, and every index gets
`isLoading := false`. -/
def stopApplyFrom (updates : List (Nat × Str)) : Nat → List GeneratedResult → List GeneratedResult
  | _, [] => []
  | i, r :: rs =>
    (match mapGet updates i with
     | some c => { r with content := c, isLoading := false }
     | none => { r with isLoading := false }) :: stopApplyFrom updates (i + 1) rs

/-- The `handleStopGenerate` handler (HomePage.tsx lines 714-768), state
part: apply all pending updates (or, with an empty buffer, just clear the
loading flags) and persist the result synchronously. -/
def handleStopGenerate (s : PageState) : PageState :=
  if s.updateBuffer ≠ [] then
    let newResults := stopApplyFrom s.updateBuffer 0 s.results
    { s with results := newResults, persisted := some newResults }
  else
    let newResults := s.results.map (fun r => { r with isLoading := false })
    { s with results := newResults, persisted := some newResults }

/-- The catch branch of `handleGenerate` (lines 565-589) combined with the
backup persistence effect on `results` changes (lines 263-279): every
entry keeps its content and is marked no longer loading, and the updated
array is persisted. -/
def handleGenerationError (s : PageState) : PageState :=
  let newResults := s.results.map (fun r => { r with isLoading := false })
  { s with results := newResults, persisted := some newResults }

/-- Content of the `i`-th entry of a results array (empty when absent). -/
def contentAt (rs : List GeneratedResult) (i : Nat) : Str :=
  (rs.getD i { id := [], content := [], isLoading := false }).content

/-- The two-newline separator of the continuation callback. -/
def nl2 : Str := "\n\n".data

/-- The `onProgress` callback of `handleContinueGenerate` (lines 844-890),
buffer part: the recorded content is `(contexts[index] || '') + '\n\n' +
content` where `content` is the accumulated continuation text. -/
def continueStep (contexts : List Str) (buf : List (Nat × Str)) (call : ProgressCall) : List (Nat × Str) :=
  let originalContent := contexts.getD call.index.toNat []
  mapSet buf call.index.toNat (originalContent ++ nl2 ++ call.content)

/-- Fold the continuation callback over a run's progress calls. -/
def runContinuation (contexts : List Str) (buf : List (Nat × Str)) (calls : List ProgressCall) : List (Nat × Str) :=
  calls.foldl (continueStep contexts) buf

/-- The first argument of `generateMultipleResponses`: a single string or
an array of prompt strings. -/
inductive UserMessage where
  | single (s : Str)
  | multi (l : List Str)

/-- The template applied in the single-string case (line 1220), with the
i18n prompt prefix as a parameter. -/
def promptTemplate (promptPre : Str) (userMessage : Str) : Str :=
  "User: ".data ++ promptPre ++ "\n".data ++ userMessage ++ "\n\nAssistant: <think>\n</think>".data

/-- The `contents` array built by `generateMultipleResponses` (lines
1213-1221): an array argument is used verbatim, a string argument is
templated and repeated `count` times. -/
def buildContents (promptPre : Str) (userMessage : UserMessage) (count : Nat) : List Str :=
  match userMessage with
  | .multi l => l
  | .single s => List.replicate count (promptTemplate promptPre s)

/-- The `actualCount` value (line 1223): the array length in the array
case, else the `count` parameter. -/
def actualCountOf : UserMessage → Nat → Nat
  | .multi l, _ => l.length
  | .single _, count => count

/-- The request body fields relevant to C10 (lines 1307-1320). -/
structure RequestBody where
  contents : List Str
  max_tokens : Nat
  stream : Bool
deriving DecidableEq

/-- Construction of the request body from the built contents. -/
def buildRequestBody (contents : List Str) (maxTokens : Nat) : RequestBody :=
  { contents := contents, max_tokens := maxTokens, stream := true }

/-- Scenario A of the specification: deltas (0,"ab"), (1,"cd"), (0,"c"). -/
def scenarioA : List StreamChunk :=
  [ { object := [], choices := [{ index := 0, delta := some ("ab".data) }] }
  , { object := [], choices := [{ index := 1, delta := some ("cd".data) }] }
  , { object := [], choices := [{ index := 0, delta := some ("c".data) }] } ]

/-- A clock oracle that always reports zero elapsed seconds. -/
def zeroClock : Nat → ℚ := fun _ => 0

/-- A small continuation delta stream: index 0 receives "x" then "y",
index 1 receives "z". -/
def scenarioC : List StreamChunk :=
  [ { object := [], choices := [{ index := 0, delta := some ("x".data) }] }
  , { object := [], choices := [{ index := 1, delta := some ("z".data) }] }
  , { object := [], choices := [{ index := 0, delta := some ("y".data) }] } ]

/-- A concrete ChatPage state used to witness the stop-handler facts. -/
def pageS0 : PageState :=
  { updateBuffer := []
    results := [{ id := "r0".data, content := "ab".data, isLoading := true }]
    persisted := none
    messages := [] }

/-- The last progress call whose index is `i` in a call sequence. -/
def lastCallFor (i : Nat) : List ProgressCall → Option ProgressCall
  | [] => none
  | c :: rest =>
    match lastCallFor i rest with
    | some c' => some c'
    | none => if c.index.toNat = i then some c else none

/-- A decode oracle for Scenario B: only the payload `ok` decodes, to an
event carrying the delta `hi` for index 0; every other payload fails. -/
def decodeB : Str → Option StreamChunk := fun p =>
  if p = "ok".data then
    some { object := [], choices := [{ index := 0, delta := some ("hi".data) }] }
  else none

/-! Helper lemmas about list splitting and re-assembly. -/

lemma splitNl_cons_nl (cs : Str) : splitNl ('\n' :: cs) = [] :: splitNl cs := by
  simp [splitNl]

lemma splitNl_cons_other (c : Char) (cs : Str) (hc : ¬ c = '\n') :
    splitNl (c :: cs) = consHead c (splitNl cs) := by
  simp [splitNl, hc]

lemma splitNl_ne_nil (s : Str) : splitNl s ≠ [] := by
  cases s with
  | nil => simp [splitNl]
  | cons c cs =>
    by_cases hc : c = '\n'
    · subst hc; rw [splitNl_cons_nl]; simp
    · rw [splitNl_cons_other c cs hc]
      cases splitNl cs <;> simp [consHead]

lemma getLastD_cons_of_ne_nil {α : Type} (a : α) (l : List α) (d : α) (h : l ≠ []) :
    (a :: l).getLastD d = l.getLastD d := by
  cases l with
  | nil => exact absurd rfl h
  | cons b bs => rfl

lemma getLastD_append_right {α : Type} (l₁ l₂ : List α) (d : α) (h : l₂ ≠ []) :
    (l₁ ++ l₂).getLastD d = l₂.getLastD d := by
  induction l₁ with
  | nil => rfl
  | cons a as ih =>
    rw [List.cons_append, getLastD_cons_of_ne_nil]
    · exact ih
    · exact fun hn => h (List.append_eq_nil.mp hn).2

lemma dropLast_append_cons' {α : Type} (l₁ : List α) (x : α) (l₂ : List α) :
    (l₁ ++ x :: l₂).dropLast = l₁ ++ (x :: l₂).dropLast := by
  induction l₁ with
  | nil => rfl
  | cons a as ih =>
    rw [List.cons_append, List.dropLast_cons_of_ne_nil, ih, List.cons_append]
    exact fun hn => by simpa using congrArg List.length hn

lemma splitNl_append (a b : Str) :
    splitNl (a ++ b) =
      (splitNl a).dropLast ++
        ((splitNl a).getLastD [] ++ (splitNl b).headD []) :: (splitNl b).tail := by
  induction a with
  | nil =>
    rcases List.exists_cons_of_ne_nil (splitNl_ne_nil b) with ⟨h, t, hb⟩
    simp [splitNl, hb]
  | cons c cs ih =>
    rcases List.exists_cons_of_ne_nil (splitNl_ne_nil cs) with ⟨x, xs, ha⟩
    by_cases hc : c = '\n'
    · subst hc
      rw [List.cons_append, splitNl_cons_nl (cs ++ b), splitNl_cons_nl cs, ih, ha]
      rfl
    · rw [List.cons_append, splitNl_cons_other c (cs ++ b) hc, splitNl_cons_other c cs hc,
        ih, ha]
      cases xs with
      | nil => rfl
      | cons y ys => rfl

lemma splitNl_eq_single (s : Str) (h : '\n' ∉ s) : splitNl s = [s] := by
  induction s with
  | nil => rfl
  | cons c cs ih =>
    have hc : ¬ c = '\n' := fun he => h (he ▸ List.mem_cons_self c cs)
    have hcs : '\n' ∉ cs := fun hm => h (List.mem_cons_of_mem c hm)
    rw [splitNl_cons_other c cs hc, ih hcs]
    rfl

lemma no_nl_getLastD_splitNl (s : Str) : '\n' ∉ (splitNl s).getLastD [] := by
  induction s with
  | nil => simp [splitNl]
  | cons c cs ih =>
    rcases List.exists_cons_of_ne_nil (splitNl_ne_nil cs) with ⟨x, xs, ha⟩
    by_cases hc : c = '\n'
    · subst hc
      rw [splitNl_cons_nl, getLastD_cons_of_ne_nil _ _ _ (splitNl_ne_nil cs)]
      exact ih
    · rw [splitNl_cons_other c cs hc, ha]
      rw [ha] at ih
      cases xs with
      | nil =>
        intro hm
        rcases List.mem_cons.mp hm with he | hm2
        · exact hc he.symm
        · exact ih hm2
      | cons y ys => exact ih

lemma sseRun_loop (chunks : List Str) : ∀ (acc : List Str) (carry : Str),
    '\n' ∉ carry →
    chunks.foldl sseStep (acc, carry) =
      (acc ++ (splitNl (carry ++ chunks.flatten)).dropLast,
       (splitNl (carry ++ chunks.flatten)).getLastD []) := by
  induction chunks with
  | nil =>
    intro acc carry hc
    simp [splitNl_eq_single carry hc]
  | cons ch rest ih =>
    intro acc carry hc
    rw [List.foldl_cons]
    have hstep : sseStep (acc, carry) ch =
        (acc ++ (splitNl (carry ++ ch)).dropLast, (splitNl (carry ++ ch)).getLastD []) := rfl
    rw [hstep, ih _ _ (no_nl_getLastD_splitNl (carry ++ ch))]
    set S := splitNl (carry ++ ch) with hS
    set lastS := S.getLastD [] with hlast
    have h1 : splitNl (lastS ++ rest.flatten) =
        ((lastS ++ (splitNl rest.flatten).headD []) :: (splitNl rest.flatten).tail) := by
      rw [splitNl_append lastS rest.flatten, splitNl_eq_single lastS (no_nl_getLastD_splitNl _)]
      rfl
    have h2 : splitNl (carry ++ (ch :: rest).flatten) =
        S.dropLast ++ ((lastS ++ (splitNl rest.flatten).headD []) :: (splitNl rest.flatten).tail) := by
      rw [List.flatten_cons, ← List.append_assoc, splitNl_append (carry ++ ch) rest.flatten]
    rw [h1, h2, dropLast_append_cons', List.append_assoc,
      getLastD_append_right _ _ _ (by simp)]

/-! Helper lemmas about the demultiplexer. -/

lemma set_getD_self {α : Type} (l : List α) (i : Nat) (v d : α) (h : i < l.length) :
    (l.set i v).getD i d = v := by
  rw [List.getD_eq_getElem?_getD, List.getElem?_set_self h]
  rfl

lemma set_getD_ne {α : Type} (l : List α) (i j : Nat) (v d : α) (h : i ≠ j) :
    (l.set i v).getD j d = l.getD j d := by
  rw [List.getD_eq_getElem?_getD, List.getElem?_set_ne h, ← List.getD_eq_getElem?_getD]

lemma applyChoice_neg (count : Nat) (clock : Nat → ℚ) (st : ExecState) (c : SSEChoice)
    (h : ¬ (c.delta.getD [] ≠ [] ∧ 0 ≤ c.index ∧ c.index < (count : Int))) :
    applyChoice count clock st c = st := by
  simp only [applyChoice]
  exact if_neg h

lemma applyChoice_pos (count : Nat) (clock : Nat → ℚ) (st : ExecState) (c : SSEChoice)
    (h : c.delta.getD [] ≠ [] ∧ 0 ≤ c.index ∧ c.index < (count : Int)) :
    applyChoice count clock st c =
      { contentBuffers := st.contentBuffers.set c.index.toNat
          (st.contentBuffers.getD c.index.toNat [] ++ c.delta.getD [])
        totalTokenCount := st.totalTokenCount + (c.delta.getD []).length
        progressLog := st.progressLog ++
          [{ index := c.index
             content := (st.contentBuffers.set c.index.toNat
               (st.contentBuffers.getD c.index.toNat [] ++ c.delta.getD [])).getD c.index.toNat []
             isComplete := false
             tokenRate := tokenRateOf (st.totalTokenCount + (c.delta.getD []).length)
               (clock st.progressLog.length)
             totalTokens := st.totalTokenCount + (c.delta.getD []).length }] } := by
  simp only [applyChoice]
  exact if_pos h

lemma applyChoice_length (count : Nat) (clock : Nat → ℚ) (st : ExecState) (c : SSEChoice) :
    (applyChoice count clock st c).contentBuffers.length = st.contentBuffers.length := by
  by_cases h : c.delta.getD [] ≠ [] ∧ 0 ≤ c.index ∧ c.index < (count : Int)
  · rw [applyChoice_pos count clock st c h]
    exact List.length_set st.contentBuffers c.index.toNat _
  · rw [applyChoice_neg count clock st c h]

lemma applyChoice_out_of_range (count : Nat) (clock : Nat → ℚ) (st : ExecState) (c : SSEChoice)
    (h : ¬ (0 ≤ c.index ∧ c.index < (count : Int))) :
    applyChoice count clock st c = st :=
  applyChoice_neg count clock st c (fun hc => h hc.2)

lemma applyChoice_getD (count : Nat) (clock : Nat → ℚ) (st : ExecState) (c : SSEChoice)
    (hlen : st.contentBuffers.length = count) (i : Nat) (hi : i < count) :
    (applyChoice count clock st c).contentBuffers.getD i [] =
      st.contentBuffers.getD i [] ++ (choiceDeltasFor i [c]).flatten := by
  by_cases hidx : c.index = (i : Int)
  · have hnn : (0 : Int) ≤ c.index := hidx ▸ Int.ofNat_nonneg i
    have hlt : c.index < (count : Int) := hidx ▸ Int.ofNat_lt.mpr hi
    have htn : c.index.toNat = i := by rw [hidx]; exact Int.toNat_natCast i
    by_cases hd : c.delta.getD [] ≠ []
    · rw [applyChoice_pos count clock st c ⟨hd, hnn, hlt⟩]
      show (st.contentBuffers.set c.index.toNat _).getD i [] = _
      rw [htn, set_getD_self _ _ _ _ (by rw [hlen]; exact hi)]
      simp [choiceDeltasFor, hidx]
    · rw [applyChoice_neg count clock st c (fun hc => hd hc.1)]
      push_neg at hd
      simp [choiceDeltasFor, hidx, hd]
  · have heq : (choiceDeltasFor i [c]).flatten = [] := by
      simp [choiceDeltasFor, hidx]
    rw [heq, List.append_nil]
    by_cases h : c.delta.getD [] ≠ [] ∧ 0 ≤ c.index ∧ c.index < (count : Int)
    · rw [applyChoice_pos count clock st c h]
      show (st.contentBuffers.set c.index.toNat _).getD i [] = _
      refine set_getD_ne _ _ _ _ _ (fun he => hidx ?_)
      rw [← he]
      exact (Int.toNat_of_nonneg h.2.1).symm
    · rw [applyChoice_neg count clock st c h]

lemma choiceDeltasFor_cons (i : Nat) (c : SSEChoice) (rest : List SSEChoice) :
    choiceDeltasFor i (c :: rest) = choiceDeltasFor i [c] ++ choiceDeltasFor i rest := by
  have : c :: rest = [c] ++ rest := rfl
  rw [this]
  exact List.filterMap_append [c] rest _

lemma foldl_applyChoice_buffers (count : Nat) (clock : Nat → ℚ) :
    ∀ (choices : List SSEChoice) (st : ExecState), st.contentBuffers.length = count →
      (choices.foldl (applyChoice count clock) st).contentBuffers.length = count ∧
      ∀ i, i < count →
        (choices.foldl (applyChoice count clock) st).contentBuffers.getD i [] =
          st.contentBuffers.getD i [] ++ (choiceDeltasFor i choices).flatten := by
  intro choices
  induction choices with
  | nil =>
    intro st h
    exact ⟨h, fun i hi => by simp [choiceDeltasFor]⟩
  | cons c rest ih =>
    intro st hlen
    have hlen' : (applyChoice count clock st c).contentBuffers.length = count := by
      rw [applyChoice_length]; exact hlen
    obtain ⟨hL, hB⟩ := ih (applyChoice count clock st c) hlen'
    rw [List.foldl_cons]
    refine ⟨hL, fun i hi => ?_⟩
    rw [hB i hi, applyChoice_getD count clock st c hlen i hi, List.append_assoc]
    congr 1
    conv_rhs => rw [choiceDeltasFor_cons i c rest]
    rw [List.flatten_append]

lemma processEvent_eq_foldl (count : Nat) (clock : Nat → ℚ) (st : ExecState) (j : StreamChunk) :
    processEvent count clock st j = j.choices.foldl (applyChoice count clock) st := by
  cases hj : j.choices with
  | nil => simp [processEvent, hj]
  | cons x xs => simp [processEvent, hj]

lemma processEvents_eq_foldl_choices (count : Nat) (clock : Nat → ℚ) :
    ∀ (events : List StreamChunk) (st : ExecState),
      processEvents count clock st events =
        ((events.map StreamChunk.choices).flatten).foldl (applyChoice count clock) st := by
  intro events
  induction events with
  | nil => intro st; rfl
  | cons e rest ih =>
    intro st
    show (e :: rest).foldl (processEvent count clock) st = _
    rw [List.foldl_cons, processEvent_eq_foldl]
    rw [show rest.foldl (processEvent count clock) (e.choices.foldl (applyChoice count clock) st) =
      processEvents count clock (e.choices.foldl (applyChoice count clock) st) rest from rfl]
    rw [ih, List.map_cons, List.flatten_cons, List.foldl_append]

lemma foldl_applyChoice_log (count : Nat) (clock : Nat → ℚ) :
    ∀ (choices : List SSEChoice) (st : ExecState),
      (choices.foldl (applyChoice count clock) st).totalTokenCount =
        st.totalTokenCount + ((appliedChoiceDeltas count choices).map List.length).sum ∧
      (choices.foldl (applyChoice count clock) st).progressLog.length =
        st.progressLog.length + (appliedChoiceDeltas count choices).length ∧
      (choices.foldl (applyChoice count clock) st).progressLog.map
          (fun pc => (pc.totalTokens, pc.tokenRate)) =
        st.progressLog.map (fun pc => (pc.totalTokens, pc.tokenRate)) ++
          withRates clock st.progressLog.length st.totalTokenCount
            ((appliedChoiceDeltas count choices).map List.length) := by
  intro choices
  induction choices with
  | nil =>
    intro st
    refine ⟨by simp [appliedChoiceDeltas], by simp [appliedChoiceDeltas], ?_⟩
    simp [appliedChoiceDeltas, withRates]
  | cons c rest ih =>
    intro st
    rw [List.foldl_cons]
    by_cases h : c.delta.getD [] ≠ [] ∧ 0 ≤ c.index ∧ c.index < (count : Int)
    · obtain ⟨h1, h2, h3⟩ := ih (applyChoice count clock st c)
      have hA : appliedChoiceDeltas count (c :: rest) =
          c.delta.getD [] :: appliedChoiceDeltas count rest := by
        simp only [appliedChoiceDeltas, List.filterMap_cons, if_pos h]
      have hst := applyChoice_pos count clock st c h
      refine ⟨?_, ?_, ?_⟩
      · rw [h1, hst]
        simp [hA, Nat.add_assoc]
      · rw [h2, hst]
        simp [hA]
        omega
      · rw [h3, hst]
        simp only [hA, List.map_cons, withRates, List.map_append, List.length_append,
          List.map_cons, List.length_cons, List.length_nil, List.append_assoc,
          List.singleton_append, List.map_nil]
    · obtain ⟨h1, h2, h3⟩ := ih st
      have hA : appliedChoiceDeltas count (c :: rest) = appliedChoiceDeltas count rest := by
        simp only [appliedChoiceDeltas, List.filterMap_cons, if_neg h]
      rw [applyChoice_neg count clock st c h, hA]
      exact ⟨h1, h2, h3⟩

lemma replicate_getD_nil (n i : Nat) :
    (List.replicate n ([] : Str)).getD i [] = [] := by
  rw [List.getD_eq_getElem?_getD]
  rcases Nat.lt_or_ge i n with h | h
  · rw [List.getElem?_replicate, if_pos h]
    rfl
  · rw [List.getElem?_eq_none (by simpa using h)]
    rfl

/-! Helper lemmas about the end-of-stream finalization. -/

lemma finalFold_spec (finalRate : Int) :
    ∀ (l : List Nat) (st : ExecState) (acc : List Str),
      l.foldl (finalStep finalRate) (st, acc) =
        ({ st with progressLog := st.progressLog ++
             l.filterMap (fun i =>
               let content := st.contentBuffers.getD i []
               if content ≠ [] then
                 some { index := (i : Int), content := content, isComplete := true,
                        tokenRate := finalRate, totalTokens := st.totalTokenCount }
               else none) },
         acc ++ l.map (fun i => st.contentBuffers.getD i [])) := by
  intro l
  induction l with
  | nil =>
    intro st acc
    simp
  | cons j rest ih =>
    intro st acc
    rw [List.foldl_cons]
    by_cases hj : st.contentBuffers.getD j [] ≠ []
    · have hstep : finalStep finalRate (st, acc) j =
          ({ st with progressLog := st.progressLog ++
              [{ index := (j : Int), content := st.contentBuffers.getD j [], isComplete := true,
                 tokenRate := finalRate, totalTokens := st.totalTokenCount }] },
           acc ++ [st.contentBuffers.getD j []]) := by
        simp only [finalStep]
        rw [if_pos hj]
      rw [hstep, ih]
      simp only [List.filterMap_cons, List.map_cons]
      rw [if_pos hj]
      simp [List.append_assoc]
    · have hstep : finalStep finalRate (st, acc) j =
          (st, acc ++ [st.contentBuffers.getD j []]) := by
        simp only [finalStep]
        rw [if_neg hj]
      rw [hstep, ih]
      simp only [List.filterMap_cons, List.map_cons]
      rw [if_neg hj]
      simp [List.append_assoc]

lemma finalizeRun_spec (count : Nat) (e : ℚ) (st : ExecState) :
    finalizeRun count e st =
      ({ st with progressLog := st.progressLog ++
           (finalCallsList count (tokenRateOf st.totalTokenCount e) st.totalTokenCount
             st.contentBuffers) },
       (List.range count).map (fun i => st.contentBuffers.getD i [])) := by
  show (List.range count).foldl (finalStep (tokenRateOf st.totalTokenCount e)) (st, []) = _
  rw [finalFold_spec (tokenRateOf st.totalTokenCount e) (List.range count) st []]
  rfl

/-! Helper lemmas about maps and the continuation callback. -/

lemma mapGet_mapSet_self (m : List (Nat × Str)) (k : Nat) (v : Str) :
    mapGet (mapSet m k v) k = some v := by
  induction m with
  | nil => simp [mapSet, mapGet]
  | cons p rest ih =>
    obtain ⟨a, b⟩ := p
    by_cases h : a = k
    · simp [mapSet, h, mapGet]
    · simp [mapSet, h, mapGet, ih]

lemma mapGet_mapSet_ne (m : List (Nat × Str)) (k k' : Nat) (v : Str) (h : k ≠ k') :
    mapGet (mapSet m k v) k' = mapGet m k' := by
  induction m with
  | nil => simp [mapSet, mapGet, h]
  | cons p rest ih =>
    obtain ⟨a, b⟩ := p
    by_cases ha : a = k
    · subst ha
      simp [mapSet, mapGet, h]
    · simp [mapSet, mapGet, ha, ih]

lemma mapSet_ne_nil (m : List (Nat × Str)) (k : Nat) (v : Str) : mapSet m k v ≠ [] := by
  cases m with
  | nil => simp [mapSet]
  | cons p rest =>
    obtain ⟨a, b⟩ := p
    by_cases h : a = k <;> simp [mapSet, h]

lemma lastCallFor_append (i : Nat) (xs ys : List ProgressCall) :
    lastCallFor i (xs ++ ys) =
      match lastCallFor i ys with
      | some c => some c
      | none => lastCallFor i xs := by
  induction xs with
  | nil =>
    rw [List.nil_append]
    cases lastCallFor i ys <;> rfl
  | cons c rest ih =>
    rw [List.cons_append]
    show (match lastCallFor i (rest ++ ys) with
          | some c' => some c'
          | none => if c.index.toNat = i then some c else none) = _
    rw [ih]
    cases lastCallFor i ys <;> rfl

lemma runContinuation_lastCall (contexts : List Str) :
    ∀ (calls : List ProgressCall) (buf : List (Nat × Str)) (i : Nat),
      mapGet (runContinuation contexts buf calls) i =
        match lastCallFor i calls with
        | some c => some (contexts.getD i [] ++ nl2 ++ c.content)
        | none => mapGet buf i := by
  intro calls
  induction calls with
  | nil => intro buf i; rfl
  | cons c rest ih =>
    intro buf i
    show mapGet (runContinuation contexts (continueStep contexts buf c) rest) i = _
    rw [ih]
    cases hr : lastCallFor i rest with
    | some c' =>
      show _ = (match lastCallFor i (c :: rest) with
                | some c => some (contexts.getD i [] ++ nl2 ++ c.content)
                | none => mapGet buf i)
      simp only [lastCallFor, hr]
    | none =>
      show mapGet (continueStep contexts buf c) i =
        (match lastCallFor i (c :: rest) with
         | some c => some (contexts.getD i [] ++ nl2 ++ c.content)
         | none => mapGet buf i)
      simp only [lastCallFor, hr]
      by_cases hc : c.index.toNat = i
      · rw [if_pos hc]
        subst hc
        exact mapGet_mapSet_self buf c.index.toNat _
      · rw [if_neg hc]
        exact mapGet_mapSet_ne buf c.index.toNat i _ hc

lemma finalCallsList_succ (n : Nat) (r : Int) (total : Nat) (buffers : List Str) :
    finalCallsList (n + 1) r total buffers =
      finalCallsList n r total buffers ++
        (if buffers.getD n [] ≠ [] then
          [{ index := (n : Int), content := buffers.getD n [], isComplete := true,
             tokenRate := r, totalTokens := total }]
         else []) := by
  unfold finalCallsList
  rw [List.range_succ, List.filterMap_append]
  congr 1
  by_cases h : buffers.getD n [] ≠ []
  · rw [if_pos h]
    simp only [List.filterMap_cons, List.filterMap_nil]
    rw [if_pos h]
  · rw [if_neg h]
    simp only [List.filterMap_cons, List.filterMap_nil]
    rw [if_neg h]

lemma finalCallsList_last (r : Int) (total : Nat) (buffers : List Str) :
    ∀ (count : Nat) (i : Nat), i < count → buffers.getD i [] ≠ [] →
      lastCallFor i (finalCallsList count r total buffers) =
        some { index := (i : Int), content := buffers.getD i [], isComplete := true,
               tokenRate := r, totalTokens := total } := by
  intro count
  induction count with
  | zero => intro i hi; omega
  | succ n ih =>
    intro i hi hne
    rw [finalCallsList_succ, lastCallFor_append]
    rcases Nat.lt_or_ge i n with hin | hin
    · have htail : lastCallFor i (if buffers.getD n [] ≠ [] then
          [{ index := (n : Int), content := buffers.getD n [], isComplete := true,
             tokenRate := r, totalTokens := total }]
         else []) = none := by
        split
        · show (if ((n : Int)).toNat = i then _ else none) = none
          rw [if_neg]
          rw [Int.toNat_natCast]
          omega
        · rfl
      rw [htail]
      exact ih i hin hne
    · have hieq : i = n := by omega
      subst hieq
      rw [if_pos hne]
      show (match (if ((i : Int)).toNat = i then some _ else none : Option ProgressCall) with
            | some c => some c
            | none => lastCallFor i (finalCallsList i r total buffers)) = _
      rw [Int.toNat_natCast, if_pos rfl]

/-! Helper lemmas about the update scheduler. -/

lemma schedUpdate_immediate (st : SchedState) (ev : SchedEvent)
    (h : 100 < ev.content.length ∨ ev.isComplete = true) :
    (schedUpdate st ev).timer = none ∧
    (schedUpdate st ev).flushes = (fireDue st ev.t).flushes ++
      [(ev.t, mapSet (fireDue st ev.t).buffer ev.index ev.content)] := by
  simp only [schedUpdate]
  rw [if_pos h]
  constructor
  · simp only [recordFlush]
    split <;> rfl
  · simp only [recordFlush]
    rw [if_neg (mapSet_ne_nil (fireDue st ev.t).buffer ev.index ev.content)]

lemma schedUpdate_throttled (st : SchedState) (ev : SchedEvent)
    (h : ¬ (100 < ev.content.length ∨ ev.isComplete = true)) :
    (schedUpdate st ev).timer = some (ev.t + 300) ∧
    (schedUpdate st ev).flushes = (fireDue st ev.t).flushes := by
  simp only [schedUpdate]
  rw [if_neg h]
  exact ⟨rfl, rfl⟩

/-! Helper lemmas about the ChatPage flush and stop handlers. -/

lemma applyUpdatesFrom_idem (updates : List (Nat × Str)) :
    ∀ (rs : List GeneratedResult) (i : Nat),
      applyUpdatesFrom updates i (applyUpdatesFrom updates i rs) =
        applyUpdatesFrom updates i rs := by
  intro rs
  induction rs with
  | nil => intro i; rfl
  | cons r rest ih =>
    intro i
    cases h : mapGet updates i with
    | some c =>
      simp only [applyUpdatesFrom, h]
      rw [ih]
    | none =>
      simp only [applyUpdatesFrom, h]
      rw [ih]

lemma stopApplyFrom_isLoading (updates : List (Nat × Str)) :
    ∀ (rs : List GeneratedResult) (i : Nat) (r : GeneratedResult),
      r ∈ stopApplyFrom updates i rs → r.isLoading = false := by
  intro rs
  induction rs with
  | nil => intro i r h; simp [stopApplyFrom] at h
  | cons x rest ih =>
    intro i r h
    simp only [stopApplyFrom] at h
    rcases List.mem_cons.mp h with he | hm
    · cases hmg : mapGet updates i <;> rw [hmg] at he <;> subst he <;> rfl
    · exact ih (i + 1) r hm

lemma contentAt_cons_succ (x : GeneratedResult) (rest : List GeneratedResult) (j : Nat) :
    contentAt (x :: rest) (j + 1) = contentAt rest j := rfl

lemma stopApplyFrom_contentAt (updates : List (Nat × Str)) :
    ∀ (rs : List GeneratedResult) (i j : Nat), j < rs.length →
      contentAt (stopApplyFrom updates i rs) j =
        match mapGet updates (i + j) with
        | some c => c
        | none => contentAt rs j := by
  intro rs
  induction rs with
  | nil => intro i j h; simp at h
  | cons x rest ih =>
    intro i j hj
    cases j with
    | zero =>
      show (match mapGet updates i with
            | some c => { x with content := c, isLoading := false }
            | none => { x with isLoading := false }).content = _
      cases hmg : mapGet updates i <;> simp [contentAt, hmg]
    | succ j' =>
      have hstep : contentAt (stopApplyFrom updates i (x :: rest)) (j' + 1) =
          contentAt (stopApplyFrom updates (i + 1) rest) j' := rfl
      rw [hstep, ih (i + 1) j' (by simpa using hj)]
      have harith : i + 1 + j' = i + (j' + 1) := by omega
      rw [harith]
      cases mapGet updates (i + (j' + 1)) <;> rfl

lemma contentAt_map_clearLoading (rs : List GeneratedResult) : ∀ (j : Nat),
    contentAt (rs.map (fun r => { r with isLoading := false })) j = contentAt rs j := by
  induction rs with
  | nil => intro j; rfl
  | cons x rest ih =>
    intro j
    cases j with
    | zero => rfl
    | succ j' => exact ih j'

lemma strStarts_refl (s : Str) : strStarts s s = true := by
  induction s with
  | nil => rfl
  | cons c cs ih => simp [strStarts, ih]

lemma flushUpdates_nonempty (s : PageState) (h : ¬ s.updateBuffer = []) :
    flushUpdates s =
      { s with messages := s.messages ++ s.updateBuffer,
               results := applyUpdatesFrom s.updateBuffer 0 s.results,
               persisted := some (applyUpdatesFrom s.updateBuffer 0 s.results) } := by
  simp only [flushUpdates]
  rw [if_neg h]

lemma handleStopGenerate_nonempty (s : PageState) (h : s.updateBuffer ≠ []) :
    handleStopGenerate s =
      { s with results := stopApplyFrom s.updateBuffer 0 s.results,
               persisted := some (stopApplyFrom s.updateBuffer 0 s.results) } := by
  simp only [handleStopGenerate]
  rw [if_pos h]

lemma handleStopGenerate_empty (s : PageState) (h : ¬ s.updateBuffer ≠ []) :
    handleStopGenerate s =
      { s with results := s.results.map (fun r => { r with isLoading := false }),
               persisted := some (s.results.map (fun r => { r with isLoading := false })) } := by
  simp only [handleStopGenerate]
  rw [if_neg h]

/-! Claim theorems. -/

/-- C1: after the demultiplexer processes a whole sequence of decoded
delta events, each buffer with index in range equals the concatenation, in
arrival order, of all deltaText values seen for that index, and a choice
whose index is out of the range leaves every buffer unchanged. -/
theorem demux_concatenation (count : Nat) (clock : Nat → ℚ) (events : List StreamChunk)
    (i : Nat) (hi : i < count) :
    (processEvents count clock (initState count) events).contentBuffers.getD i [] =
      (deltasFor i events).flatten ∧
    ∀ (st : ExecState) (c : SSEChoice), ¬ (0 ≤ c.index ∧ c.index < (count : Int)) →
      (applyChoice count clock st c).contentBuffers = st.contentBuffers := by
  constructor
  · rw [processEvents_eq_foldl_choices]
    have h := (foldl_applyChoice_buffers count clock ((events.map StreamChunk.choices).flatten)
      (initState count) (by simp [initState])).2 i hi
    rw [h, show (initState count).contentBuffers.getD i [] = [] from replicate_getD_nil count i]
    rfl
  · intro st c h
    rw [applyChoice_out_of_range count clock st c h]

/-- Witness for C1: Scenario A, index 0 with three streams. -/
theorem demux_concatenation_witness :
    (processEvents 3 zeroClock (initState 3) scenarioA).contentBuffers.getD 0 [] =
      (deltasFor 0 scenarioA).flatten :=
  (demux_concatenation 3 zeroClock scenarioA 0 (by decide)).1

/-- C2: feeding any chunking of a text through the carry-over read loop
emits exactly the complete lines of the whole text, in order, with the
trailing (unterminated) segment left in the carry: no line is lost or
duplicated at a chunk boundary. -/
theorem sse_chunk_reassembly (chunks : List Str) :
    sseRun chunks =
      ((splitNl chunks.flatten).dropLast, (splitNl chunks.flatten).getLastD []) := by
  have h := sseRun_loop chunks [] [] (by simp)
  simpa [sseRun] using h

/-- C3 counterexample: in Scenario D the source restarts the throttle
timer on the second update, so the single flush fires at the 350 ms mark,
not at the 300 ms mark claimed. -/
theorem throttle_flush_not_at_300 :
    ¬ ((runSched scenarioD).flushes.map Prod.fst = [300]) := by
  intro hc
  have h : (runSched scenarioD).flushes.map Prod.fst = [350] := rfl
  rw [h] at hc
  exact absurd hc (by decide)

/-- C3 (amended): an update over the length threshold or marked complete
cancels the pending timer and flushes all pending updates synchronously;
otherwise the shared throttle timer is restarted to fire 300 ms after that
update; in Scenario D exactly one flush occurs, 300 ms after the second
update (at the 350 ms mark), containing the latest combined content. -/
theorem throttle_behaviour (st : SchedState) (ev : SchedEvent) :
    ((100 < ev.content.length ∨ ev.isComplete = true) →
      (schedUpdate st ev).timer = none ∧
      (schedUpdate st ev).flushes = (fireDue st ev.t).flushes ++
        [(ev.t, mapSet (fireDue st ev.t).buffer ev.index ev.content)]) ∧
    (¬ (100 < ev.content.length ∨ ev.isComplete = true) →
      (schedUpdate st ev).timer = some (ev.t + 300) ∧
      (schedUpdate st ev).flushes = (fireDue st ev.t).flushes) ∧
    (runSched scenarioD).flushes = [(350, [(0, List.replicate 60 'b')])] := by
  refine ⟨fun h => schedUpdate_immediate st ev h, fun h => schedUpdate_throttled st ev h, ?_⟩
  rfl

/-- Witness for C3: one over-threshold update flushes at once, one
sub-threshold update arms the 300 ms timer. -/
theorem throttle_behaviour_witness :
    (schedUpdate { timer := none, buffer := [], flushes := [] }
        { t := 0, index := 0, content := List.replicate 101 'a', isComplete := false }).timer =
      none ∧
    (schedUpdate { timer := none, buffer := [], flushes := [] }
        { t := 0, index := 0, content := List.replicate 50 'a', isComplete := false }).timer =
      some 300 :=
  ⟨((throttle_behaviour { timer := none, buffer := [], flushes := [] }
      { t := 0, index := 0, content := List.replicate 101 'a', isComplete := false }).1
      (by decide)).1,
   ((throttle_behaviour { timer := none, buffer := [], flushes := [] }
      { t := 0, index := 0, content := List.replicate 50 'a', isComplete := false }).2.1
      (by decide)).1⟩

/-- C4: a complete line whose trimmed payload is the literal DONE marker
leaves the state unchanged, a line whose payload fails to decode is
skipped without affecting the processing of the remaining lines, and in
Scenario B the valid line after a malformed one still applies its delta. -/
theorem done_and_malformed_lines_skipped (decode : Str → Option StreamChunk)
    (count : Nat) (clock : Nat → ℚ) (st : ExecState) (line : Str) (rest : List Str) :
    (trimChars (line.drop 6) = "[DONE]".data →
      processLine decode count clock st line = st) ∧
    (decode (trimChars (line.drop 6)) = none →
      processLines decode count clock st (line :: rest) =
        processLines decode count clock st rest) ∧
    (processLines decodeB 8 zeroClock (initState 8)
        ["data: bad".data, "data: ok".data]).contentBuffers.getD 0 [] = "hi".data := by
  refine ⟨?_, ?_, by rfl⟩
  · intro hdone
    simp only [processLine]
    split <;> rfl
  · intro hnone
    have hskip : processLine decode count clock st line = st := by
      simp only [processLine]
      split
      · rfl
      · split
        · rfl
        · rw [hnone]
    show processLines decode count clock (processLine decode count clock st line) rest = _
    rw [hskip]

/-- Witness for C4: the literal DONE payload and a malformed payload. -/
theorem done_and_malformed_lines_skipped_witness :
    processLine decodeB 8 zeroClock (initState 8) ("data: [DONE]".data) = initState 8 ∧
    processLines decodeB 8 zeroClock (initState 8)
        ("data: bad".data :: ["data: ok".data]) =
      processLines decodeB 8 zeroClock (initState 8) ["data: ok".data] :=
  ⟨(done_and_malformed_lines_skipped decodeB 8 zeroClock (initState 8)
      ("data: [DONE]".data) []).1 (by rfl),
   (done_and_malformed_lines_skipped decodeB 8 zeroClock (initState 8)
      ("data: bad".data) ["data: ok".data]).2.1 (by rfl)⟩

/-- C5: at end of stream every index with a non-empty buffer receives
exactly one final isComplete callback carrying the full buffer content and
the final rate/total snapshot, and empty indices receive none; in
Scenario A the final buffers are "abc", "cd", "" and only indices 0 and 1
receive a final callback. -/
theorem final_callbacks_nonempty_only (count : Nat) (e : ℚ) (st : ExecState) :
    (finalizeRun count e st).1.progressLog =
      st.progressLog ++ finalCallsList count (tokenRateOf st.totalTokenCount e)
        st.totalTokenCount st.contentBuffers ∧
    (processEvents 3 zeroClock (initState 3) scenarioA).contentBuffers =
      ["abc".data, "cd".data, []] ∧
    ((finalizeRun 3 0 (processEvents 3 zeroClock (initState 3) scenarioA)).1.progressLog.filter
        (fun c => c.isComplete)).map (fun c => (c.index, c.content)) =
      [((0 : Int), "abc".data), ((1 : Int), "cd".data)] := by
  refine ⟨?_, by rfl, by rfl⟩
  rw [finalizeRun_spec]

/-- C6: in a continuation run the recorded content for an updated index i
equals contexts[i] ++ two newlines ++ the accumulated continuation text of
index i, both at each single progress update and in the map recorded after
the whole run. -/
theorem continuation_appends_context (count : Nat) (clock : Nat → ℚ)
    (events : List StreamChunk) (contexts : List Str) (buf0 : List (Nat × Str))
    (e : ℚ) (i : Nat) (hi : i < count)
    (hne : (processEvents count clock (initState count) events).contentBuffers.getD i [] ≠ []) :
    mapGet (runContinuation contexts buf0
        (finalizeRun count e (processEvents count clock (initState count) events)).1.progressLog) i =
      some (contexts.getD i [] ++ nl2 ++
        (processEvents count clock (initState count) events).contentBuffers.getD i []) ∧
    ∀ (buf : List (Nat × Str)) (call : ProgressCall),
      mapGet (continueStep contexts buf call) call.index.toNat =
        some (contexts.getD call.index.toNat [] ++ nl2 ++ call.content) := by
  constructor
  · rw [finalizeRun_spec, runContinuation_lastCall, lastCallFor_append,
      finalCallsList_last _ _ _ count i hi hne]
  · intro buf call
    exact mapGet_mapSet_self buf call.index.toNat _

/-- Witness for C6: contexts foo and bar with the scenarioC delta
stream. -/
theorem continuation_appends_context_witness :
    mapGet (runContinuation ["foo".data, "bar".data] []
        (finalizeRun 2 0 (processEvents 2 zeroClock (initState 2) scenarioC)).1.progressLog) 0 =
      some ("foo".data ++ nl2 ++ "xy".data) :=
  (continuation_appends_context 2 zeroClock scenarioC ["foo".data, "bar".data] [] 0 0
    (by decide) (by decide)).1

/-- C7: the flush never removes pending entries, and flushing twice with
no new updates in between leaves the persisted snapshot and the visible
results identical to flushing once. -/
theorem flush_keeps_pending_and_idempotent (s : PageState) :
    (flushUpdates s).updateBuffer = s.updateBuffer ∧
    (flushUpdates (flushUpdates s)).persisted = (flushUpdates s).persisted ∧
    (flushUpdates (flushUpdates s)).results = (flushUpdates s).results := by
  by_cases h : s.updateBuffer = []
  · have he : flushUpdates s = s := by
      simp only [flushUpdates]
      rw [if_pos h]
    simp [he]
  · have h1 := flushUpdates_nonempty s h
    have hb : (flushUpdates s).updateBuffer = s.updateBuffer := by rw [h1]
    have h2 := flushUpdates_nonempty (flushUpdates s) (by rw [hb]; exact h)
    have hr : (flushUpdates s).results = applyUpdatesFrom s.updateBuffer 0 s.results := by
      rw [h1]
    have hp : (flushUpdates s).persisted = some (applyUpdatesFrom s.updateBuffer 0 s.results) := by
      rw [h1]
    refine ⟨hb, ?_, ?_⟩
    · rw [h2]
      show some (applyUpdatesFrom (flushUpdates s).updateBuffer 0 (flushUpdates s).results) =
        (flushUpdates s).persisted
      rw [hb, hr, hp, applyUpdatesFrom_idem]
    · rw [h2]
      show applyUpdatesFrom (flushUpdates s).updateBuffer 0 (flushUpdates s).results =
        (flushUpdates s).results
      rw [hb, hr, applyUpdatesFrom_idem]

/-- C8: stopping a run (or its error handler) leaves every index with
isLoading false, persists the updated results, and never rolls back
content: under the run invariant that each pending update extends the
visible content, the new content of every index extends the old one, and
the error path keeps every content unchanged. -/
theorem stop_and_error_preserve_content (s : PageState)
    (hmono : ∀ j c, mapGet s.updateBuffer j = some c →
      strStarts c (contentAt s.results j) = true) :
    (∀ r ∈ (handleStopGenerate s).results, r.isLoading = false) ∧
    (handleStopGenerate s).persisted = some (handleStopGenerate s).results ∧
    (∀ j, j < s.results.length →
      strStarts (contentAt (handleStopGenerate s).results j) (contentAt s.results j) = true) ∧
    (∀ r ∈ (handleGenerationError s).results, r.isLoading = false) ∧
    (handleGenerationError s).results.map GeneratedResult.content =
      s.results.map GeneratedResult.content ∧
    (handleGenerationError s).persisted = some (handleGenerationError s).results := by
  have herr1 : ∀ r ∈ (handleGenerationError s).results, r.isLoading = false := by
    intro r hr
    rcases List.mem_map.mp hr with ⟨x, hx, he⟩
    rw [← he]
  have herr2 : (handleGenerationError s).results.map GeneratedResult.content =
      s.results.map GeneratedResult.content := by
    show (s.results.map (fun r => { r with isLoading := false })).map GeneratedResult.content = _
    rw [List.map_map]
    rfl
  by_cases h : s.updateBuffer = []
  · have hs := handleStopGenerate_empty s (fun hn => hn h)
    have hres : (handleStopGenerate s).results =
        s.results.map (fun r => { r with isLoading := false }) := by rw [hs]
    have hper : (handleStopGenerate s).persisted =
        some (s.results.map (fun r => { r with isLoading := false })) := by rw [hs]
    refine ⟨?_, ?_, ?_, herr1, herr2, rfl⟩
    · intro r hr
      rw [hres] at hr
      rcases List.mem_map.mp hr with ⟨x, hx, he⟩
      rw [← he]
    · rw [hper, hres]
    · intro j hj
      rw [hres, contentAt_map_clearLoading]
      exact strStarts_refl _
  · have hs := handleStopGenerate_nonempty s h
    have hres : (handleStopGenerate s).results = stopApplyFrom s.updateBuffer 0 s.results := by
      rw [hs]
    have hper : (handleStopGenerate s).persisted =
        some (stopApplyFrom s.updateBuffer 0 s.results) := by rw [hs]
    refine ⟨?_, ?_, ?_, herr1, herr2, rfl⟩
    · intro r hr
      rw [hres] at hr
      exact stopApplyFrom_isLoading s.updateBuffer s.results 0 r hr
    · rw [hper, hres]
    · intro j hj
      have hca := stopApplyFrom_contentAt s.updateBuffer s.results 0 j hj
      rw [hres, hca]
      cases hmg : mapGet s.updateBuffer (0 + j) with
      | some c =>
        have hh := hmono j c (by rw [← hmg]; congr 1; omega)
        exact hh
      | none =>
        exact strStarts_refl _

/-- Witness for C8: a concrete state with an empty pending buffer. -/
theorem stop_and_error_preserve_content_witness :
    (handleStopGenerate pageS0).persisted = some (handleStopGenerate pageS0).results ∧
    strStarts (contentAt (handleStopGenerate pageS0).results 0) (contentAt pageS0.results 0) =
      true :=
  ⟨(stop_and_error_preserve_content pageS0
      (fun j c hc => by simp [pageS0, mapGet] at hc)).2.1,
   (stop_and_error_preserve_content pageS0
      (fun j c hc => by simp [pageS0, mapGet] at hc)).2.2.1 0 (by decide)⟩

/-- C9: the stream-phase progress reports carry exactly the running sums
of the applied delta lengths paired with the rate the source formula
yields at the observed elapsed time, the final total is the sum over all
applied deltas, and the token rate is zero at zero elapsed time and never
negative. -/
theorem token_metrics (count : Nat) (clock : Nat → ℚ) (events : List StreamChunk) :
    (processEvents count clock (initState count) events).progressLog.map
        (fun pc => (pc.totalTokens, pc.tokenRate)) =
      withRates clock 0 0 ((appliedDeltas count events).map List.length) ∧
    (processEvents count clock (initState count) events).totalTokenCount =
      ((appliedDeltas count events).map List.length).sum ∧
    (∀ (total : Nat) (e : ℚ), 0 ≤ tokenRateOf total e) ∧
    (∀ total : Nat, tokenRateOf total 0 = 0) ∧
    (∀ (e : ℚ),
      (finalizeRun count e (processEvents count clock (initState count) events)).1.progressLog =
        (processEvents count clock (initState count) events).progressLog ++
          finalCallsList count
            (tokenRateOf (((appliedDeltas count events).map List.length).sum) e)
            (((appliedDeltas count events).map List.length).sum)
            (processEvents count clock (initState count) events).contentBuffers) := by
  have hfold := foldl_applyChoice_log count clock
    ((events.map StreamChunk.choices).flatten) (initState count)
  have hTot : (processEvents count clock (initState count) events).totalTokenCount =
      ((appliedDeltas count events).map List.length).sum := by
    rw [processEvents_eq_foldl_choices, hfold.1]
    simp [initState, appliedDeltas]
  refine ⟨?_, hTot, ?_, ?_, ?_⟩
  · rw [processEvents_eq_foldl_choices, hfold.2.2]
    rfl
  · intro total e
    unfold tokenRateOf
    split
    · rename_i he
      rw [round_eq]
      refine Int.le_floor.mpr ?_
      have hx : (0 : ℚ) ≤ (total : ℚ) / e := div_nonneg (by positivity) (le_of_lt he)
      push_cast
      linarith
    · exact le_refl 0
  · intro total
    unfold tokenRateOf
    rw [if_neg (lt_irrefl 0)]
  · intro e
    rw [finalizeRun_spec, hTot]

/-- C10: an array argument to generateMultipleResponses is used verbatim
as the request contents, the template wraps only the single-string case,
and the effective stream count is the array length regardless of the
count parameter. -/
theorem array_prompts_verbatim (promptPre : Str) (l : List Str) (count maxTokens : Nat)
    (s : Str) :
    buildContents promptPre (UserMessage.multi l) count = l ∧
    (buildRequestBody (buildContents promptPre (UserMessage.multi l) count) maxTokens).contents =
      l ∧
    actualCountOf (UserMessage.multi l) count = l.length ∧
    buildContents promptPre (UserMessage.single s) count =
      List.replicate count (promptTemplate promptPre s) :=
  ⟨rfl, rfl, rfl, rfl⟩

end RWKV
